import Mathlib

/-!
Shallow embedding of `src/gitlab_exporter.py` (class `GitlabCollector`):
the status maps, the timestamp conversion, the glob filtering used by the
entity loaders, and the six metric collectors, together with theorems about
the specified behaviour. Python exceptions (dict `KeyError`, `ValueError`
from date parsing) are modelled by `Option`, with `none` meaning the
collection pass raises.
-/

set_option autoImplicit false

namespace GitlabExporter

/-- A Prometheus sample: the label values paired with the metric value.
Float metric values are modelled exactly by rationals (every value the
exporter produces is a decimal number well below 2^53, where Python floats
are exact). -/
abbrev Sample := List String × ℚ

/-- A `GaugeMetricFamily(name, help, labels=...)` together with the samples
accumulated into it by `add_metric`. -/
structure MetricFamily where
  name : String
  help : String
  labelNames : List String
  samples : List Sample
deriving DecidableEq

/-- Table `pipeline_status_map` (source lines 19-26). A Python dict lookup on a
missing key raises `KeyError`, modelled as `none`. -/
def pipeline_status_map (s : String) : Option ℕ :=
  if s = "running" then some 0
  else if s = "pending" then some 1
  else if s = "success" then some 2
  else if s = "failed" then some 3
  else if s = "canceled" then some 4
  else if s = "skipped" then some 5
  else none

/-- Table `issue_status_map` (source lines 28-31). -/
def issue_status_map (s : String) : Option ℕ :=
  if s = "opened" then some 0
  else if s = "closed" then some 1
  else none

/-- Table `mr_status_map` (source lines 33-38). -/
def mr_status_map (s : String) : Option ℕ :=
  if s = "opened" then some 0
  else if s = "closed" then some 1
  else if s = "locked" then some 2
  else if s = "merged" then some 3
  else none

/-! ## Python `str.replace` -/

/-- Core loop of Python `str.replace`: replace non-overlapping occurrences of
the pattern `p0 :: ps` left to right. The `fuel` argument only makes the
recursion structural (each step consumes at least one character, so with
`fuel = l.length` the zero-fuel branch is never reached). -/
def listReplace (p0 : Char) (ps rep : List Char) : ℕ → List Char → List Char
  | 0, l => l
  | _ + 1, [] => []
  | fuel + 1, c :: rest =>
    if (p0 :: ps).isPrefixOf (c :: rest) then
      rep ++ listReplace p0 ps rep fuel (rest.drop ps.length)
    else
      c :: listReplace p0 ps rep fuel rest

/-- Python `str.replace(pat, rep)`: every non-overlapping occurrence of `pat`
is replaced by `rep`, scanning left to right (with an empty pattern the Python
behaviour of inserting everywhere is never exercised by the source, which only
replaces `"Z"`; we keep the string unchanged in that case). -/
def pyReplace (s pat rep : String) : String :=
  match pat.data with
  | [] => s
  | p0 :: ps => ⟨listReplace p0 ps rep.data s.data.length s.data⟩

/-! ## `datetime.fromisoformat` and epoch arithmetic -/

/-- Leap year in the proleptic Gregorian calendar, as Python `datetime`. -/
def isLeap (y : ℕ) : Bool :=
  y % 4 == 0 && (y % 100 != 0 || y % 400 == 0)

/-- Number of days of month `m` (1-12) in year `y`. -/
def daysInMonth (y m : ℕ) : ℕ :=
  if m = 2 then (if isLeap y then 29 else 28)
  else if m = 4 ∨ m = 6 ∨ m = 9 ∨ m = 11 then 30
  else 31

/-- Days in year `y` before the first day of month `m`. -/
def daysBeforeMonth (y m : ℕ) : ℕ :=
  (List.range (m - 1)).foldl (fun acc i => acc + daysInMonth y (i + 1)) 0

/-- Python `datetime.toordinal()`: day number in the proleptic Gregorian
calendar, with 0001-01-01 = day 1. -/
def toOrdinal (y m d : ℕ) : ℕ :=
  365 * (y - 1) + (y - 1) / 4 - (y - 1) / 100 + (y - 1) / 400
    + daysBeforeMonth y m + d

/-- The fields of a parsed `datetime.datetime`. -/
structure PyDateTime where
  year : ℕ
  month : ℕ
  day : ℕ
  hour : ℕ
  minute : ℕ
  second : ℕ
  microsecond : ℕ
  /-- Parsed UTC offset in minutes (`none` when the input carried no offset).
  `to_timestamp` discards it by overwriting `tzinfo` with UTC. -/
  offsetMinutes : Option ℤ
deriving DecidableEq

/-- Decimal digit value of a character, `none` for non-digits. -/
def digit? (c : Char) : Option ℕ :=
  if c.isDigit then some (c.toNat - 48) else none

/-- Two-digit decimal number. -/
def digits2 (a b : Char) : Option ℕ := do
  let x ← digit? a
  let y ← digit? b
  some (10 * x + y)

/-- Three-digit decimal number. -/
def digits3 (a b c : Char) : Option ℕ := do
  let x ← digit? a
  let y ← digit? b
  let z ← digit? c
  some (100 * x + 10 * y + z)

/-- Four-digit decimal number. -/
def digits4 (a b c d : Char) : Option ℕ := do
  let x ← digit? a
  let y ← digit? b
  let z ← digit? c
  let w ← digit? d
  some (1000 * x + 100 * y + 10 * z + w)

/-- Trailing `±HH:MM` UTC offset of an ISO string (empty input: no offset).
Python builds `timezone(timedelta(...))`, rejecting hours above 23. -/
def parseOffset (l : List Char) : Option (Option ℤ) :=
  match l with
  | [] => some none
  | [sign, h1, h2, ':', m1, m2] => do
    let hh ← digits2 h1 h2
    let mm ← digits2 m1 m2
    if (sign = '+' ∨ sign = '-') ∧ hh ≤ 23 ∧ mm ≤ 59 then
      some (some (if sign = '+' then (hh * 60 + mm : ℤ) else -(hh * 60 + mm : ℤ)))
    else none
  | _ => none

/-- Optional `.fff` / `.ffffff` fraction (converted to microseconds) followed
by the optional offset. -/
def parseFracOffset (l : List Char) : Option (ℕ × Option ℤ) :=
  match l with
  | '.' :: a :: b :: c :: rest =>
    match rest with
    | d :: e :: f :: rest2 =>
      if d.isDigit then do
        let hi ← digits3 a b c
        let lo ← digits3 d e f
        let off ← parseOffset rest2
        some (hi * 1000 + lo, off)
      else do
        let hi ← digits3 a b c
        let off ← parseOffset rest
        some (hi * 1000, off)
    | _ => do
      let hi ← digits3 a b c
      let off ← parseOffset rest
      some (hi * 1000, off)
  | _ => do
    let off ← parseOffset l
    some (0, off)

/-- Models Python `datetime.datetime.fromisoformat` (which does NOT accept a
trailing `Z`: that is why the source substitutes `+00:00` first) for the
shapes the exporter meets: `YYYY-MM-DD`, and `YYYY-MM-DD*HH:MM:SS` with any
single separator character, an optional 3- or 6-digit fraction and an
optional `±HH:MM` offset. Out-of-range fields raise `ValueError` (`none`). -/
def fromisoformat (s : String) : Option PyDateTime :=
  match s.data with
  | [y1, y2, y3, y4, '-', m1, m2, '-', d1, d2] => do
    let y ← digits4 y1 y2 y3 y4
    let mo ← digits2 m1 m2
    let d ← digits2 d1 d2
    if 1 ≤ y ∧ 1 ≤ mo ∧ mo ≤ 12 ∧ 1 ≤ d ∧ d ≤ daysInMonth y mo then
      some ⟨y, mo, d, 0, 0, 0, 0, none⟩
    else none
  | y1 :: y2 :: y3 :: y4 :: '-' :: m1 :: m2 :: '-' :: d1 :: d2 :: _sep ::
      h1 :: h2 :: ':' :: mi1 :: mi2 :: ':' :: s1 :: s2 :: rest => do
    let y ← digits4 y1 y2 y3 y4
    let mo ← digits2 m1 m2
    let d ← digits2 d1 d2
    let h ← digits2 h1 h2
    let mi ← digits2 mi1 mi2
    let sec ← digits2 s1 s2
    let (micro, off) ← parseFracOffset rest
    if 1 ≤ y ∧ 1 ≤ mo ∧ mo ≤ 12 ∧ 1 ≤ d ∧ d ≤ daysInMonth y mo
        ∧ h ≤ 23 ∧ mi ≤ 59 ∧ sec ≤ 59 then
      some ⟨y, mo, d, h, mi, sec, micro, off⟩
    else none
  | _ => none

/-- Function `to_timestamp` (source lines 305-310): substitute `+00:00` for every `Z`,
parse with `fromisoformat`, overwrite `tzinfo` with UTC (the wall-clock fields
are kept and any parsed offset is discarded), and return epoch milliseconds
as a float. An unparseable date raises (`none`). -/
def to_timestamp (date : String) : Option ℚ :=
  match fromisoformat (pyReplace date "Z" "+00:00") with
  | none => none
  | some dt =>
    let secs : ℤ :=
      ((toOrdinal dt.year dt.month dt.day : ℤ) - (toOrdinal 1970 1 1 : ℤ)) * 86400
        + dt.hour * 3600 + dt.minute * 60 + dt.second
    some ((secs * 1000 : ℤ) + (dt.microsecond : ℚ) / 1000)

/-! ## `fnmatch.fnmatch` -/

/-- Scan of a bracket expression up to the closing `]` (the characters after
the opening `[`, with a leading `!` already stripped). Mirrors
`fnmatch.translate`: a `]` in first position is an ordinary member, and a
missing closing `]` means the bracket is unterminated (`none`). -/
def untilClose : List Char → Option (List Char × List Char)
  | [] => none
  | ']' :: t => some ([], t)
  | c :: t => (untilClose t).map (fun p => (c :: p.1, p.2))

/-- Bracket scan allowing the POSIX leading literal `]`. -/
def scanStuff (l : List Char) : Option (List Char × List Char) :=
  match l with
  | ']' :: t => (untilClose t).map (fun p => (']' :: p.1, p.2))
  | t => untilClose t

/-- Parse the remainder of the pattern after an opening `[` into the negation
flag, the member characters, and the pattern rest after the closing `]`;
`none` when the bracket never closes (then `[` is literal). -/
def bracketParse (ps : List Char) : Option (Bool × List Char × List Char) :=
  match ps with
  | '!' :: t => (scanStuff t).map (fun p => (true, p.1, p.2))
  | t => (scanStuff t).map (fun p => (false, p.1, p.2))

/-- Membership of a character in a bracket expression, with `a-b` ranges by
code point (an inverted range is empty) and `-` literal at either end. -/
def memSet : List Char → Char → Bool
  | [], _ => false
  | a :: '-' :: b :: rest, c =>
    (decide (a.toNat ≤ c.toNat ∧ c.toNat ≤ b.toNat)) || memSet rest c
  | a :: rest, c => (a == c) || memSet rest c

/-- The shell-glob matcher of `fnmatch.translate` on full strings (the
compiled regex is matched against the whole name): `*` matches any run of
characters, `?` any single character, `[...]` a character class, and an
unterminated `[` is an ordinary character. The `fuel` argument only makes
the recursion structural: every recursive call strictly decreases
`ps.length + s.length` (a closed bracket consumes at least one pattern
character), so with `fuel = ps.length + s.length + 1` the zero-fuel branch
is never reached. -/
def matchGlobAux : ℕ → List Char → List Char → Bool
  | 0, _, _ => false
  | fuel + 1, ps, s =>
    match ps with
    | [] => s.isEmpty
    | p :: pt =>
      if p = '*' then
        match s with
        | [] => matchGlobAux fuel pt []
        | _ :: t => matchGlobAux fuel pt s || matchGlobAux fuel (p :: pt) t
      else if p = '?' then
        match s with
        | [] => false
        | _ :: t => matchGlobAux fuel pt t
      else if p = '[' then
        match bracketParse pt with
        | some (neg, set, rest) =>
          match s with
          | [] => false
          | c :: t =>
            (if neg then !(memSet set c) else memSet set c) && matchGlobAux fuel rest t
        | none =>
          match s with
          | [] => false
          | c :: t => (p == c) && matchGlobAux fuel pt t
      else
        match s with
        | [] => false
        | c :: t => (p == c) && matchGlobAux fuel pt t

/-- Whole-string glob match of pattern `ps` against `s`. -/
def matchGlob (ps s : List Char) : Bool :=
  matchGlobAux (s.length + ps.length + 1) ps s

/-- Python `fnmatch.fnmatch(name, pattern)`: on POSIX `os.path.normcase` is the
identity, so this is case-sensitive whole-string glob matching. -/
def fnmatch (name pat : String) : Bool :=
  matchGlob pat.data name.data

/-! ## Upstream entities

The fields of the duck-typed API objects that the source actually reads.
The per-scrape API listings (`.list(as_list=False)`, fully paginated by the
client library) are modelled as the lists carried by these structures; the
per-pipeline detail fetch `proj.pipelines.get(id)` and the per-branch
protection fetch `proj.protectedbranches.get(name)` are modelled by the
detail data already sitting on the element. -/

/-- A user reference dict with `name` and `username` (pipeline trigger user,
issue/MR assignee). -/
structure UserRef where
  name : String
  username : String
deriving DecidableEq

/-- A group or project member. -/
structure Member where
  name : String
  username : String
  access_level : ℕ
deriving DecidableEq

/-- A pipeline as read by `collect_pipelines`. -/
structure Pipeline where
  ref : String
  user : UserRef
  status : String
  duration : ℤ
  created_at : String
deriving DecidableEq

/-- An issue as read by `collect_issues`. -/
structure Issue where
  id : ℕ
  title : String
  assignees : List UserRef
  state : String
  created_at : String
deriving DecidableEq

/-- A merge request as read by `collect_merge_requests`. -/
structure MergeRequest where
  id : ℕ
  work_in_progress : Bool
  title : String
  assignee : Option UserRef
  state : String
  created_at : String
  updated_at : String
deriving DecidableEq

/-- One entry of `push_access_levels` / `merge_access_levels`. -/
structure AccessLevelEntry where
  access_level : ℕ
deriving DecidableEq

/-- The protection policy fetched by `proj.protectedbranches.get(branch.name)`. -/
structure BranchProtection where
  push_access_levels : List AccessLevelEntry
  merge_access_levels : List AccessLevelEntry
deriving DecidableEq

/-- A branch from `proj.branches.list`, with the protection policy the
collector would fetch for it when `protected` is set. -/
structure Branch where
  name : String
  «protected» : Bool
  protection : BranchProtection
deriving DecidableEq

/-- A group (`full_path`, members). -/
structure Group where
  full_path : String
  members : List Member
deriving DecidableEq

/-- A project (`path_with_namespace` and its facet sub-resources). -/
structure Project where
  path_with_namespace : String
  pipelines : List Pipeline
  issues : List Issue
  mergerequests : List MergeRequest
  members : List Member
  branches : List Branch
deriving DecidableEq

/-! ## Entity loaders (source lines 66-96) -/

/-- Method `load_groups` (source lines 66-80): keep a group when the filter list is
empty, or when some filter glob-matches its `full_path` (the loop sets
`include_group` and breaks on the first match). -/
def load_groups (filters : List String) (apiGroups : List Group) : List Group :=
  apiGroups.filter fun group =>
    if filters.length > 0 then
      filters.any fun group_filter => fnmatch group.full_path group_filter
    else
      true

/-- Method `load_projects` (source lines 82-96): same filtering over
`path_with_namespace`. -/
def load_projects (filters : List String) (apiProjects : List Project) : List Project :=
  apiProjects.filter fun project =>
    if filters.length > 0 then
      filters.any fun project_filter => fnmatch project.path_with_namespace project_filter
    else
      true

/-! ## Metric collectors (source lines 109-302) -/

/-- Left-to-right sequencing of a list of possibly-raising computations: the
first `none` (Python exception) aborts the whole collection pass. -/
def allSome {α : Type} : List (Option α) → Option (List α)
  | [] => some []
  | none :: _ => none
  | some a :: rest => (allSome rest).map (a :: ·)

def pipeline_labels : List String :=
  ["project", "ref", "user", "username"]

/-- The samples of one pipeline (source lines 125-134): the label tuple, the
status lookup (`KeyError` on an unmapped status), the duration and the
converted `created_at`. -/
def pipelineRow (proj : Project) (pipeline : Pipeline) : Option (Sample × Sample × Sample) := do
  let status ← pipeline_status_map pipeline.status
  let created ← to_timestamp pipeline.created_at
  let labels := [proj.path_with_namespace, pipeline.ref, pipeline.user.name,
    pipeline.user.username]
  some ((labels, (status : ℚ)), (labels, (pipeline.duration : ℚ)), (labels, created))

/-- Method `collect_pipelines` (source lines 109-136). -/
def collect_pipelines (projects : List Project) : Option (List MetricFamily) := do
  let rows ← allSome (projects.flatMap fun proj => proj.pipelines.map (pipelineRow proj))
  some [⟨"gitlab_pipeline_status", "Pipeline status", pipeline_labels, rows.map (·.1)⟩,
    ⟨"gitlab_pipeline_duration", "Pipeline duration", pipeline_labels, rows.map (·.2.1)⟩,
    ⟨"gitlab_pipeline_created_at", "Pipeline created_at", pipeline_labels, rows.map (·.2.2)⟩]

def issue_labels : List String :=
  ["project", "id", "title", "assigned_user", "assigned_username"]

/-- The label tuple of one issue (source lines 153-166): the first assignee
when there is one, else the `"None"`/`"None"` sentinels. -/
def issueLabels (proj : Project) (issue : Issue) : List String :=
  let assigned_user := match issue.assignees with
    | [] => "None"
    | a :: _ => a.name
  let assigned_username := match issue.assignees with
    | [] => "None"
    | a :: _ => a.username
  [proj.path_with_namespace, toString issue.id, issue.title, assigned_user,
    assigned_username]

/-- The samples of one issue (source lines 153-169). -/
def issueRow (proj : Project) (issue : Issue) : Option (Sample × Sample) := do
  let state ← issue_status_map issue.state
  let created ← to_timestamp issue.created_at
  some ((issueLabels proj issue, (state : ℚ)), (issueLabels proj issue, created))

/-- Method `collect_issues` (source lines 138-171). -/
def collect_issues (projects : List Project) : Option (List MetricFamily) := do
  let rows ← allSome (projects.flatMap fun proj => proj.issues.map (issueRow proj))
  some [⟨"gitlab_issue_state", "Issue state", issue_labels, rows.map (·.1)⟩,
    ⟨"gitlab_issue_created_at", "Issue created_at", issue_labels, rows.map (·.2)⟩]

def mr_labels : List String :=
  ["project", "id", "wip", "title", "assigned_user", "assigned_username"]

/-- Python `str()` of a bool. -/
def pyStrBool (b : Bool) : String :=
  if b then "True" else "False"

/-- The label tuple of one merge request (source lines 189-203): the assignee
when not `None`, else the `"None"`/`"None"` sentinels. -/
def mrLabels (proj : Project) (mr : MergeRequest) : List String :=
  let assigned_user := match mr.assignee with
    | none => "None"
    | some a => a.name
  let assigned_username := match mr.assignee with
    | none => "None"
    | some a => a.username
  [proj.path_with_namespace, toString mr.id, pyStrBool mr.work_in_progress,
    mr.title, assigned_user, assigned_username]

/-- The samples of one merge request (source lines 189-207). -/
def mrRow (proj : Project) (mr : MergeRequest) : Option (Sample × Sample × Sample) := do
  let state ← mr_status_map mr.state
  let created ← to_timestamp mr.created_at
  let updated ← to_timestamp mr.updated_at
  some ((mrLabels proj mr, (state : ℚ)), (mrLabels proj mr, created),
    (mrLabels proj mr, updated))

/-- Method `collect_merge_requests` (source lines 173-209). -/
def collect_merge_requests (projects : List Project) : Option (List MetricFamily) := do
  let rows ← allSome (projects.flatMap fun proj => proj.mergerequests.map (mrRow proj))
  some [⟨"gitlab_merge_request_state", "Merge request state", mr_labels, rows.map (·.1)⟩,
    ⟨"gitlab_merge_request_created_at", "Merge request created_at", mr_labels,
      rows.map (·.2.1)⟩,
    ⟨"gitlab_merge_request_updated_at", "Merge request updated_at", mr_labels,
      rows.map (·.2.2)⟩]

def membership_labels : List String :=
  ["path", "user", "username"]

/-- Method `collect_membership` (source lines 211-240): group members first, then
project members, all into one family. -/
def collect_membership (groups : List Group) (projects : List Project) : List MetricFamily :=
  [⟨"gitlab_membership", "Membership", membership_labels,
    (groups.flatMap fun group => group.members.map fun member =>
      ([group.full_path, member.name, member.username], (member.access_level : ℚ)))
    ++ (projects.flatMap fun proj => proj.members.map fun member =>
      ([proj.path_with_namespace, member.name, member.username],
        (member.access_level : ℚ)))⟩]

/-- Method `collect_paths` (source lines 242-263): constant 1 per group path, then
per project path. -/
def collect_paths (groups : List Group) (projects : List Project) : List MetricFamily :=
  [⟨"gitlab_path", "Paths", ["path"],
    (groups.map fun group => ([group.full_path], (1 : ℚ)))
    ++ (projects.map fun proj => ([proj.path_with_namespace], (1 : ℚ)))⟩]

def pb_labels : List String :=
  ["project", "ref"]

/-- The push value of one branch (source lines 276-288): `0` for an
unprotected branch; for a protected branch, start from the sentinel `100000`
and lower it entry by entry — `min` over `push_access_levels` seeded with
`100000`. -/
def branchPush (branch : Branch) : ℕ :=
  if branch.«protected» then
    branch.protection.push_access_levels.foldl
      (fun push push_access => min push push_access.access_level) 100000
  else 0

/-- The merge value of one branch (source lines 276-292), symmetric to
`branchPush` over `merge_access_levels`. -/
def branchMerge (branch : Branch) : ℕ :=
  if branch.«protected» then
    branch.protection.merge_access_levels.foldl
      (fun merge merge_access => min merge merge_access.access_level) 100000
  else 0

/-- Method `collect_protected_branches` (source lines 265-302): one push sample and
one merge sample per listed branch, protected or not. -/
def collect_protected_branches (projects : List Project) : List MetricFamily :=
  let rows := projects.flatMap fun proj => proj.branches.map fun branch =>
    ([proj.path_with_namespace, branch.name], branchPush branch, branchMerge branch)
  [⟨"gitlab_protected_branch_push", "Protected Branch", pb_labels,
    rows.map fun r => (r.1, (r.2.1 : ℚ))⟩,
  ⟨"gitlab_protected_branch_merge", "Protected Branch", pb_labels,
    rows.map fun r => (r.1, (r.2.2 : ℚ))⟩]

/-! ## Collection router (source lines 98-107 and 313-336) -/

/-- The entity sets loaded at startup and shared by the collectors of one
registry instance. -/
structure CollectorState where
  groups : List Group
  projects : List Project
deriving DecidableEq

/-- The six collector methods. -/
inductive CollectorName where
  | pipelines
  | issues
  | mergeRequests
  | membership
  | paths
  | protectedBranches
deriving DecidableEq

/-- Run one collector against the state. The source methods never assign any
`self` field, so the state comes back unchanged; a raising collector
(`none`) fails the scrape. -/
def runCollector : CollectorName → CollectorState → CollectorState × Option (List MetricFamily)
  | .pipelines, s => (s, collect_pipelines s.projects)
  | .issues, s => (s, collect_issues s.projects)
  | .mergeRequests, s => (s, collect_merge_requests s.projects)
  | .membership, s => (s, some (collect_membership s.groups s.projects))
  | .paths, s => (s, some (collect_paths s.groups s.projects))
  | .protectedBranches, s => (s, some (collect_protected_branches s.projects))

/-- Method `collect` (source lines 98-107): run each registered collector in order
and concatenate the returned families; an exception anywhere fails the whole
scrape. -/
def collect (s : CollectorState) : List CollectorName → CollectorState × Option (List MetricFamily)
  | [] => (s, some [])
  | c :: rest =>
    let r1 := runCollector c s
    let r2 := collect r1.1 rest
    (r2.1, match r1.2, r2.2 with
      | some a, some b => some (a ++ b)
      | _, _ => none)

/-! ## Concrete upstream states used as witnesses and counterexamples -/

def cexBranchC1 : Branch := ⟨"main", false, ⟨[], []⟩⟩

def cexProjectC1 : Project := ⟨"g/p", [], [], [], [], [cexBranchC1]⟩

def cexBranchC2 : Branch := ⟨"main", true, ⟨[⟨200000⟩], [⟨200000⟩]⟩⟩

def cexProjectC2 : Project := ⟨"g/p", [], [], [], [], [cexBranchC2]⟩

def wBranchC2 : Branch := ⟨"main", true, ⟨[⟨40⟩, ⟨30⟩], [⟨40⟩]⟩⟩

def wProjectC2 : Project := ⟨"g/p", [], [], [], [], [wBranchC2]⟩

def wBranchC9 : Branch := ⟨"main", true, ⟨[], []⟩⟩

def wProjectC9 : Project := ⟨"g/p", [], [], [], [], [wBranchC9]⟩

def wPipelineC5 : Pipeline := ⟨"main", ⟨"Alice", "alice"⟩, "restarting", 10, "2024-01-01T00:00:00Z"⟩

def wProjectC5 : Project := ⟨"g/p", [wPipelineC5], [], [], [], []⟩

def wIssueC6 : Issue := ⟨1, "Fix crash", [], "opened", "2024-01-01T00:00:00Z"⟩

def wProjectC6 : Project := ⟨"g/p", [], [wIssueC6], [], [], []⟩

def wMrC10 : MergeRequest :=
  ⟨2, false, "Add feature", none, "opened", "2024-01-01T00:00:00Z", "2024-01-02T00:00:00Z"⟩

def wProjectC10 : Project := ⟨"g/p", [], [], [wMrC10], [], []⟩

def cexGroupC7 : Group := ⟨"[", []⟩

/-- The minimum `access_level` over the entries of an access-rule list, as
the claim words it (the claim presupposes at least one entry; the value on
`[]` is never used below). -/
def claimMinAccess : List AccessLevelEntry → ℕ
  | [] => 100000
  | a :: rest => rest.foldl (fun m r => min m r.access_level) a.access_level

/-! ## Helper lemmas -/

theorem allSome_eq_map_some {α : Type} {l : List (Option α)} {l' : List α}
    (h : allSome l = some l') : l = l'.map some := by
  induction l generalizing l' with
  | nil =>
    simp only [allSome, Option.some.injEq] at h
    simp [← h]
  | cons x t ih =>
    cases x with
    | none => simp [allSome] at h
    | some a =>
      simp only [allSome, Option.map_eq_some'] at h
      obtain ⟨b, hb, heq⟩ := h
      subst heq
      simp [ih hb]

theorem allSome_eq_none {α : Type} {l : List (Option α)} (h : none ∈ l) :
    allSome l = none := by
  induction l with
  | nil => simp at h
  | cons x t ih =>
    cases x with
    | none => rfl
    | some a =>
      rcases List.mem_cons.mp h with hx | hx
      · exact absurd hx.symm (by simp)
      · simp [allSome, ih hx]

theorem mem_allSome {α : Type} {l : List (Option α)} {l' : List α} {a : α}
    (h : allSome l = some l') (hm : some a ∈ l) : a ∈ l' := by
  rw [allSome_eq_map_some h] at hm
  obtain ⟨b, hb, heq⟩ := List.mem_map.mp hm
  cases heq
  exact hb

theorem mem_load_groups {filters : List String} {gs : List Group} {g : Group} :
    g ∈ load_groups filters gs
      ↔ g ∈ gs ∧ (filters = [] ∨ ∃ pat ∈ filters, fnmatch g.full_path pat = true) := by
  rw [load_groups, List.mem_filter]
  cases filters with
  | nil => simp
  | cons a t => simp [List.any_eq_true]

theorem mem_load_projects {filters : List String} {ps : List Project} {p : Project} :
    p ∈ load_projects filters ps
      ↔ p ∈ ps ∧ (filters = [] ∨ ∃ pat ∈ filters, fnmatch p.path_with_namespace pat = true) := by
  rw [load_projects, List.mem_filter]
  cases filters with
  | nil => simp
  | cons a t => simp [List.any_eq_true]

theorem untilClose_length {l : List Char} {stuff rest : List Char}
    (h : untilClose l = some (stuff, rest)) : rest.length < l.length := by
  induction l generalizing stuff rest with
  | nil => simp [untilClose] at h
  | cons c t ih =>
    by_cases hc : c = ']'
    · subst hc
      simp only [untilClose, Option.some.injEq, Prod.mk.injEq] at h
      simp [← h.2]
    · simp only [untilClose, hc, Option.map_eq_some'] at h
      obtain ⟨⟨a, b⟩, hab, heq⟩ := h
      have := ih hab
      simp only [Prod.mk.injEq] at heq
      simp [← heq.2]
      omega

theorem scanStuff_length {l : List Char} {stuff rest : List Char}
    (h : scanStuff l = some (stuff, rest)) : rest.length < l.length := by
  unfold scanStuff at h
  split at h
  · simp only [Option.map_eq_some'] at h
    obtain ⟨⟨a, b⟩, hab, heq⟩ := h
    have := untilClose_length hab
    simp only [Prod.mk.injEq] at heq
    have hr : rest = b := heq.2.symm
    subst hr
    simp
    omega
  · exact untilClose_length h

theorem bracketParse_length {ps : List Char} {neg : Bool} {set rest : List Char}
    (h : bracketParse ps = some (neg, set, rest)) : rest.length < ps.length := by
  unfold bracketParse at h
  split at h
  · simp only [Option.map_eq_some'] at h
    obtain ⟨⟨a, b⟩, hab, heq⟩ := h
    have := scanStuff_length hab
    simp only [Prod.mk.injEq] at heq
    have hr : rest = b := heq.2.2.symm
    subst hr
    simp
    omega
  · simp only [Option.map_eq_some'] at h
    obtain ⟨⟨a, b⟩, hab, heq⟩ := h
    have := scanStuff_length hab
    simp only [Prod.mk.injEq] at heq
    have hr : rest = b := heq.2.2.symm
    subst hr
    omega

/-- Fuel irrelevance: `matchGlobAux` does not depend on the fuel as long as
it exceeds `ps.length + s.length` (every recursive call strictly decreases
that sum, a closed bracket consuming at least one pattern character). -/
theorem matchGlobAux_fuel (k : ℕ) :
    ∀ (ps s : List Char), ps.length + s.length < k →
    ∀ (n₁ n₂ : ℕ), ps.length + s.length < n₁ → ps.length + s.length < n₂ →
    matchGlobAux n₁ ps s = matchGlobAux n₂ ps s := by
  induction k with
  | zero =>
    intro ps s h
    exact absurd h (Nat.not_lt_zero _)
  | succ k ih =>
    intro ps s hk n₁ n₂ h₁ h₂
    obtain ⟨m₁, rfl⟩ : ∃ m, n₁ = m + 1 := ⟨n₁ - 1, by omega⟩
    obtain ⟨m₂, rfl⟩ : ∃ m, n₂ = m + 1 := ⟨n₂ - 1, by omega⟩
    cases ps with
    | nil => rfl
    | cons p pt =>
      simp only [List.length_cons] at hk h₁ h₂
      simp only [matchGlobAux]
      split_ifs
      · cases s with
        | nil => exact ih pt [] (by simp; omega) m₁ m₂ (by simp; omega) (by simp; omega)
        | cons c t =>
          simp only [List.length_cons] at hk h₁ h₂
          show (matchGlobAux m₁ pt (c :: t) || matchGlobAux m₁ (p :: pt) t)
            = (matchGlobAux m₂ pt (c :: t) || matchGlobAux m₂ (p :: pt) t)
          rw [ih pt (c :: t) (by simp; omega) m₁ m₂ (by simp; omega) (by simp; omega),
            ih (p :: pt) t (by simp; omega) m₁ m₂ (by simp; omega) (by simp; omega)]
      · cases s with
        | nil => rfl
        | cons c t =>
          simp only [List.length_cons] at hk h₁ h₂
          exact ih pt t (by omega) m₁ m₂ (by omega) (by omega)
      · cases hbp : bracketParse pt with
        | some r =>
          obtain ⟨neg, set, rest⟩ := r
          have hrest := bracketParse_length hbp
          cases s with
          | nil => rfl
          | cons c t =>
            simp only [List.length_cons] at hk h₁ h₂
            show ((if neg = true then !memSet set c else memSet set c)
                && matchGlobAux m₁ rest t)
              = ((if neg = true then !memSet set c else memSet set c)
                && matchGlobAux m₂ rest t)
            rw [ih rest t (by omega) m₁ m₂ (by omega) (by omega)]
        | none =>
          cases s with
          | nil => rfl
          | cons c t =>
            simp only [List.length_cons] at hk h₁ h₂
            show ((p == c) && matchGlobAux m₁ pt t) = ((p == c) && matchGlobAux m₂ pt t)
            rw [ih pt t (by omega) m₁ m₂ (by omega) (by omega)]
      · cases s with
        | nil => rfl
        | cons c t =>
          simp only [List.length_cons] at hk h₁ h₂
          show ((p == c) && matchGlobAux m₁ pt t) = ((p == c) && matchGlobAux m₂ pt t)
          rw [ih pt t (by omega) m₁ m₂ (by omega) (by omega)]

/-- One step of the matcher at an unterminated bracket: the `[` is consumed
as an ordinary literal character and matching continues with the remaining
pattern under its normal glob semantics. -/
theorem matchGlobAux_lbracket_none {pt : List Char} (h : bracketParse pt = none)
    (n : ℕ) (s : List Char) :
    matchGlobAux (n + 1) ('[' :: pt) s
      = match s with
      | [] => false
      | c :: t => ('[' == c) && matchGlobAux n pt t := by
  cases s with
  | nil => simp [matchGlobAux, h]
  | cons c t => simp [matchGlobAux, h]

theorem matchGlob_lbracket (s : List Char) : matchGlob ['['] s = decide (s = ['[']) := by
  cases s with
  | nil => rfl
  | cons c t =>
    show (('[' == c) && matchGlobAux (t.length + 2) [] t) = decide (c :: t = ['['])
    have hnil : matchGlobAux (t.length + 2) [] t = t.isEmpty := rfl
    rw [hnil]
    cases t with
    | nil =>
      by_cases hc : c = '['
      · subst hc; rfl
      · rw [List.isEmpty_nil, Bool.and_true,
          show decide ([c] = ['[']) = false from by simp [hc]]
        exact beq_eq_false_iff_ne.mpr (Ne.symm hc)
    | cons d u =>
      rw [show (d :: u).isEmpty = false from rfl, Bool.and_false]
      simp

/-- Emission shape of `collect_protected_branches`: each listed branch of an
in-scope project contributes its push and merge samples. -/
theorem pb_mem {projects : List Project} {proj : Project} {branch : Branch}
    (hp : proj ∈ projects) (hb : branch ∈ proj.branches) :
    ∃ fp fm, collect_protected_branches projects = [fp, fm]
      ∧ ([proj.path_with_namespace, branch.name], (branchPush branch : ℚ)) ∈ fp.samples
      ∧ ([proj.path_with_namespace, branch.name], (branchMerge branch : ℚ)) ∈ fm.samples := by
  refine ⟨_, _, rfl, ?_, ?_⟩ <;>
  · simp only [List.mem_map, List.mem_flatMap]
    exact ⟨([proj.path_with_namespace, branch.name], branchPush branch, branchMerge branch),
      ⟨proj, hp, branch, hb, rfl⟩, rfl⟩

/-- Emission shape of `collect_issues` on success: each issue's row lands in
both families. -/
theorem issue_mem {projects : List Project} {proj : Project} {issue : Issue}
    {fams : List MetricFamily}
    (hp : proj ∈ projects) (hi : issue ∈ proj.issues)
    (hc : collect_issues projects = some fams) :
    ∃ (rows : List (Sample × Sample)) (row : Sample × Sample), fams =
        [⟨"gitlab_issue_state", "Issue state", issue_labels, rows.map (·.1)⟩,
         ⟨"gitlab_issue_created_at", "Issue created_at", issue_labels, rows.map (·.2)⟩]
      ∧ issueRow proj issue = some row ∧ row ∈ rows := by
  simp only [collect_issues, bind, Option.bind_eq_some, Option.some.injEq] at hc
  obtain ⟨rows, hall, hfams⟩ := hc
  have hmem : issueRow proj issue
      ∈ projects.flatMap (fun proj => proj.issues.map (issueRow proj)) :=
    List.mem_flatMap_of_mem hp (List.mem_map_of_mem _ hi)
  have hsome : ∃ row, issueRow proj issue = some row ∧ row ∈ rows := by
    rw [allSome_eq_map_some hall] at hmem
    obtain ⟨row, hrow, heq⟩ := List.mem_map.mp hmem
    exact ⟨row, heq.symm, hrow⟩
  obtain ⟨row, hrow, hrows⟩ := hsome
  exact ⟨rows, row, hfams.symm, hrow, hrows⟩

/-- Emission shape of `collect_merge_requests` on success. -/
theorem mr_mem {projects : List Project} {proj : Project} {mr : MergeRequest}
    {fams : List MetricFamily}
    (hp : proj ∈ projects) (hm : mr ∈ proj.mergerequests)
    (hc : collect_merge_requests projects = some fams) :
    ∃ (rows : List (Sample × Sample × Sample)) (row : Sample × Sample × Sample), fams =
        [⟨"gitlab_merge_request_state", "Merge request state", mr_labels, rows.map (·.1)⟩,
         ⟨"gitlab_merge_request_created_at", "Merge request created_at", mr_labels,
           rows.map (·.2.1)⟩,
         ⟨"gitlab_merge_request_updated_at", "Merge request updated_at", mr_labels,
           rows.map (·.2.2)⟩]
      ∧ mrRow proj mr = some row ∧ row ∈ rows := by
  simp only [collect_merge_requests, bind, Option.bind_eq_some, Option.some.injEq] at hc
  obtain ⟨rows, hall, hfams⟩ := hc
  have hmem : mrRow proj mr
      ∈ projects.flatMap (fun proj => proj.mergerequests.map (mrRow proj)) :=
    List.mem_flatMap_of_mem hp (List.mem_map_of_mem _ hm)
  have hsome : ∃ row, mrRow proj mr = some row ∧ row ∈ rows := by
    rw [allSome_eq_map_some hall] at hmem
    obtain ⟨row, hrow, heq⟩ := List.mem_map.mp hmem
    exact ⟨row, heq.symm, hrow⟩
  obtain ⟨row, hrow, hrows⟩ := hsome
  exact ⟨rows, row, hfams.symm, hrow, hrows⟩

/-! ## Claim theorems -/

/-- C1 counterexample: the claim says an unprotected branch yields no sample
in the protected-branch families, but on a project with one unprotected
branch `main` the collector emits a push sample and a merge sample labelled
with that branch (value 0). -/
theorem c1_counterexample :
    collect_protected_branches [cexProjectC1]
      = [⟨"gitlab_protected_branch_push", "Protected Branch", pb_labels,
          [(["g/p", "main"], ((0 : ℕ) : ℚ))]⟩,
         ⟨"gitlab_protected_branch_merge", "Protected Branch", pb_labels,
          [(["g/p", "main"], ((0 : ℕ) : ℚ))]⟩] := rfl

/-- C1 (amended): every branch returned by the branch list gets a sample in
both protected-branch families; a branch that is not protected is reported
with push value 0 and merge value 0 rather than omitted. -/
theorem c1_unprotected_branch_zero_fact :
    ∀ (projects : List Project) (proj : Project) (branch : Branch),
    proj ∈ projects → branch ∈ proj.branches → branch.«protected» = false →
    ∃ fp fm, collect_protected_branches projects = [fp, fm]
      ∧ ([proj.path_with_namespace, branch.name], ((0 : ℕ) : ℚ)) ∈ fp.samples
      ∧ ([proj.path_with_namespace, branch.name], ((0 : ℕ) : ℚ)) ∈ fm.samples := by
  intro projects proj branch hp hb hprot
  have h := pb_mem hp hb
  rwa [show branchPush branch = 0 from by simp [branchPush, hprot],
    show branchMerge branch = 0 from by simp [branchMerge, hprot]] at h

/-- C1 witness: the amended claim at the concrete one-project state. -/
theorem c1_witness :
    ∃ fp fm, collect_protected_branches [cexProjectC1] = [fp, fm]
      ∧ (["g/p", "main"], ((0 : ℕ) : ℚ)) ∈ fp.samples
      ∧ (["g/p", "main"], ((0 : ℕ) : ℚ)) ∈ fm.samples :=
  c1_unprotected_branch_zero_fact [cexProjectC1] cexProjectC1 cexBranchC1
    (by simp) (by simp [cexProjectC1]) rfl

/-- C2 counterexample: with a single push rule of access_level 200000 the
collector reports 100000 (the sentinel seed of the `min` fold), not the
minimum 200000 over the entries, so "push equals the minimum access_level
over all entries" fails as stated. -/
theorem c2_counterexample :
    collect_protected_branches [cexProjectC2]
      = [⟨"gitlab_protected_branch_push", "Protected Branch", pb_labels,
          [(["g/p", "main"], ((100000 : ℕ) : ℚ))]⟩,
         ⟨"gitlab_protected_branch_merge", "Protected Branch", pb_labels,
          [(["g/p", "main"], ((100000 : ℕ) : ℚ))]⟩]
    ∧ claimMinAccess cexBranchC2.protection.push_access_levels = 200000
    ∧ (100000 : ℕ) ≠ 200000 :=
  ⟨rfl, rfl, by decide⟩

/-- C2 (amended): for a protected branch whose rule lists are nonempty and
whose access levels do not exceed the 100000 seed (true of every platform
access tier), the reported push and merge values are the minima over the
respective entry lists; in particular push rules 40, 30 and merge rule 40
give push = 30, merge = 40. -/
theorem c2_min_access :
    ∀ (projects : List Project) (proj : Project) (branch : Branch),
    proj ∈ projects → branch ∈ proj.branches → branch.«protected» = true →
    (∀ r ∈ branch.protection.push_access_levels, r.access_level ≤ 100000) →
    (∀ r ∈ branch.protection.merge_access_levels, r.access_level ≤ 100000) →
    branch.protection.push_access_levels ≠ [] →
    branch.protection.merge_access_levels ≠ [] →
    ∃ fp fm, collect_protected_branches projects = [fp, fm]
      ∧ ([proj.path_with_namespace, branch.name],
          (claimMinAccess branch.protection.push_access_levels : ℚ)) ∈ fp.samples
      ∧ ([proj.path_with_namespace, branch.name],
          (claimMinAccess branch.protection.merge_access_levels : ℚ)) ∈ fm.samples := by
  intro projects proj branch hp hb hprot hbp hbm hnep hnem
  have hpush : branchPush branch = claimMinAccess branch.protection.push_access_levels := by
    cases hl : branch.protection.push_access_levels with
    | nil => exact absurd hl hnep
    | cons a rest =>
      have ha : a.access_level ≤ 100000 := hbp a (by rw [hl]; exact List.mem_cons_self a rest)
      simp only [branchPush, hprot, if_true, hl, claimMinAccess, List.foldl_cons]
      rw [min_eq_right ha]
  have hmerge : branchMerge branch = claimMinAccess branch.protection.merge_access_levels := by
    cases hl : branch.protection.merge_access_levels with
    | nil => exact absurd hl hnem
    | cons a rest =>
      have ha : a.access_level ≤ 100000 := hbm a (by rw [hl]; exact List.mem_cons_self a rest)
      simp only [branchMerge, hprot, if_true, hl, claimMinAccess, List.foldl_cons]
      rw [min_eq_right ha]
  have h := pb_mem hp hb
  rwa [hpush, hmerge] at h

/-- C2 witness: push rules 40, 30 and merge rule 40 yield push = 30 and
merge = 40, via the amended theorem at the concrete state. -/
theorem c2_witness :
    ∃ fp fm, collect_protected_branches [wProjectC2] = [fp, fm]
      ∧ (["g/p", "main"], ((30 : ℕ) : ℚ)) ∈ fp.samples
      ∧ (["g/p", "main"], ((40 : ℕ) : ℚ)) ∈ fm.samples :=
  c2_min_access [wProjectC2] wProjectC2 wBranchC2 (by simp) (by simp [wProjectC2])
    rfl (by decide) (by decide) (by decide) (by decide)

/-- C3: the timestamp conversion is a pure function;
`"2024-01-01T00:00:00Z"` maps to `1704067200000.0`, the already-offset form
`"2024-01-01T00:00:00+00:00"` maps to the identical value, and the
Z-substitution is a no-op on the offset form. -/
theorem c3_to_timestamp_values :
    to_timestamp "2024-01-01T00:00:00Z" = some 1704067200000
    ∧ to_timestamp "2024-01-01T00:00:00+00:00" = some 1704067200000
    ∧ pyReplace "2024-01-01T00:00:00+00:00" "Z" "+00:00" = "2024-01-01T00:00:00+00:00" := by
  refine ⟨?_, ?_, by decide⟩
  · have h : fromisoformat (pyReplace "2024-01-01T00:00:00Z" "Z" "+00:00")
        = some ⟨2024, 1, 1, 0, 0, 0, 0, some 0⟩ := by decide
    rw [to_timestamp, h]
    norm_num [toOrdinal, daysBeforeMonth, daysInMonth, isLeap, List.range_succ]
  · have h : fromisoformat (pyReplace "2024-01-01T00:00:00+00:00" "Z" "+00:00")
        = some ⟨2024, 1, 1, 0, 0, 0, 0, some 0⟩ := by decide
    rw [to_timestamp, h]
    norm_num [toOrdinal, daysBeforeMonth, daysInMonth, isLeap, List.range_succ]

/-- C4: an entity passes the loader filter iff the pattern list is empty or
some pattern glob-matches its path, for both `load_groups` (over
`full_path`) and `load_projects` (over `path_with_namespace`). -/
theorem c4_filter_scope :
    ∀ (L : List String) (gs : List Group) (ps : List Project) (g : Group) (p : Project),
    (g ∈ load_groups L gs ↔ g ∈ gs ∧ (L = [] ∨ ∃ pat ∈ L, fnmatch g.full_path pat = true))
    ∧ (p ∈ load_projects L ps
        ↔ p ∈ ps ∧ (L = [] ∨ ∃ pat ∈ L, fnmatch p.path_with_namespace pat = true)) :=
  fun _ _ _ _ _ => ⟨mem_load_groups, mem_load_projects⟩

/-- C5: the pipeline status table is total over exactly the six statuses with
the fixed codes, any other status string raises (`none`), and an unmapped
status on any listed pipeline fails the whole `collect_pipelines` pass. -/
theorem c5_pipeline_status_total :
    (pipeline_status_map "running" = some 0 ∧ pipeline_status_map "pending" = some 1
      ∧ pipeline_status_map "success" = some 2 ∧ pipeline_status_map "failed" = some 3
      ∧ pipeline_status_map "canceled" = some 4 ∧ pipeline_status_map "skipped" = some 5)
    ∧ (∀ s : String,
        s ∉ ["running", "pending", "success", "failed", "canceled", "skipped"] →
        pipeline_status_map s = none)
    ∧ (∀ (projects : List Project) (proj : Project) (pipeline : Pipeline),
        proj ∈ projects → pipeline ∈ proj.pipelines →
        pipeline_status_map pipeline.status = none →
        collect_pipelines projects = none) := by
  refine ⟨by decide, ?_, ?_⟩
  · intro s hs
    simp only [List.mem_cons, List.not_mem_nil, or_false, not_or] at hs
    obtain ⟨h1, h2, h3, h4, h5, h6⟩ := hs
    simp [pipeline_status_map, h1, h2, h3, h4, h5, h6]
  · intro projects proj pipeline hp hpl hst
    have hrow : pipelineRow proj pipeline = none := by
      unfold pipelineRow
      rw [hst]
      rfl
    have hmem : (none : Option (Sample × Sample × Sample))
        ∈ projects.flatMap (fun proj => proj.pipelines.map (pipelineRow proj)) := by
      rw [← hrow]
      exact List.mem_flatMap_of_mem hp (List.mem_map_of_mem _ hpl)
    unfold collect_pipelines
    rw [allSome_eq_none hmem]
    rfl

/-- C5 witness: the status `"restarting"` is unmapped and fails the pass for
a concrete one-pipeline project. -/
theorem c5_witness :
    pipeline_status_map "restarting" = none ∧ collect_pipelines [wProjectC5] = none :=
  ⟨c5_pipeline_status_total.2.1 "restarting" (by decide),
   c5_pipeline_status_total.2.2 [wProjectC5] wProjectC5 wPipelineC5 (by simp)
     (by simp [wProjectC5]) (by decide)⟩

/-- C6: an issue with an empty assignee list is emitted with the sentinel
label values `"None"`/`"None"` in both issue families, whose label-name
tuples stay the fixed five-label `issue_labels`. -/
theorem c6_issue_unassigned_sentinel :
    ∀ (projects : List Project) (proj : Project) (issue : Issue) (fams : List MetricFamily),
    proj ∈ projects → issue ∈ proj.issues → issue.assignees = [] →
    collect_issues projects = some fams →
    ∃ f1 f2, fams = [f1, f2] ∧ f1.labelNames = issue_labels ∧ f2.labelNames = issue_labels
      ∧ (∃ v, ([proj.path_with_namespace, toString issue.id, issue.title, "None", "None"], v)
          ∈ f1.samples)
      ∧ (∃ v, ([proj.path_with_namespace, toString issue.id, issue.title, "None", "None"], v)
          ∈ f2.samples) := by
  intro projects proj issue fams hp hi ha hc
  obtain ⟨rows, row, hfams, hrow, hrows⟩ := issue_mem hp hi hc
  have hlab : issueLabels proj issue
      = [proj.path_with_namespace, toString issue.id, issue.title, "None", "None"] := by
    simp [issueLabels, ha]
  simp only [issueRow, bind, Option.bind_eq_some, Option.some.injEq] at hrow
  obtain ⟨st, hst, created, hcr, hroweq⟩ := hrow
  subst hroweq
  refine ⟨_, _, hfams, rfl, rfl, ⟨(st : ℚ), ?_⟩, ⟨created, ?_⟩⟩
  · rw [← hlab]
    exact List.mem_map_of_mem _ hrows
  · rw [← hlab]
    exact List.mem_map_of_mem _ hrows

/-- C6 witness: the concrete unassigned issue at a one-project state. -/
theorem c6_witness :
    ∃ f1 f2, (collect_issues [wProjectC6]).getD [] = [f1, f2]
      ∧ f1.labelNames = issue_labels ∧ f2.labelNames = issue_labels
      ∧ (∃ v, (["g/p", "1", "Fix crash", "None", "None"], v) ∈ f1.samples)
      ∧ (∃ v, (["g/p", "1", "Fix crash", "None", "None"], v) ∈ f2.samples) :=
  c6_issue_unassigned_sentinel [wProjectC6] wProjectC6 wIssueC6
    ((collect_issues [wProjectC6]).getD []) (by simp) (by simp [wProjectC6]) rfl (by rfl)

/-- C7 counterexample: the malformed pattern `"["` (unterminated bracket)
does not "match no candidate path at all": it glob-matches the path `"["`
and so admits that entity through the loader filter. -/
theorem c7_counterexample :
    fnmatch "[" "[" = true ∧ load_groups ["["] [cexGroupC7] = [cexGroupC7] := by
  constructor
  · decide
  · decide

/-- C7 (amended): filtering with a malformed glob never raises (the matcher
is total), but the pattern is not match-nothing: whenever the matcher reaches
an unterminated `[` (any remaining pattern `pt` whose bracket never closes),
the `[` is matched as an ordinary literal character — it matches a literal
`[` in the path and the rest of the pattern keeps its normal glob meaning,
and matches nothing else. In particular the malformed pattern `"["` matches
exactly the candidate path `"["`, and the loader then admits exactly the
entities with that path — a malformed pattern can admit an entity, not only
exclude. -/
theorem c7_malformed_literal :
    (∀ (pt t : List Char), bracketParse pt = none →
      matchGlob ('[' :: pt) ('[' :: t) = matchGlob pt t)
    ∧ (∀ (pt : List Char) (c : Char) (t : List Char), bracketParse pt = none →
      c ≠ '[' → matchGlob ('[' :: pt) (c :: t) = false)
    ∧ (∀ (pt : List Char), bracketParse pt = none → matchGlob ('[' :: pt) [] = false)
    ∧ (∀ P : String, fnmatch P "[" = true ↔ P = "[")
    ∧ (∀ (g : Group) (gs : List Group),
      g ∈ load_groups ["["] gs ↔ g ∈ gs ∧ g.full_path = "[") := by
  have key : ∀ Q : String, fnmatch Q "[" = true ↔ Q = "[" := by
    intro Q
    have h1 : fnmatch Q "[" = decide (Q.data = ['[']) := matchGlob_lbracket Q.data
    rw [h1, decide_eq_true_eq, show (['['] : List Char) = "[".data from rfl,
      ← String.ext_iff]
  refine ⟨?_, ?_, ?_, key, ?_⟩
  · intro pt t h
    show matchGlobAux (('[' :: t).length + ('[' :: pt).length + 1) ('[' :: pt) ('[' :: t)
      = matchGlob pt t
    rw [matchGlobAux_lbracket_none h]
    show (('[' == '[') && matchGlobAux (('[' :: t).length + ('[' :: pt).length) pt t)
      = matchGlob pt t
    rw [show (('[' : Char) == '[') = true from rfl, Bool.true_and]
    show matchGlobAux (('[' :: t).length + ('[' :: pt).length) pt t
      = matchGlobAux (t.length + pt.length + 1) pt t
    exact matchGlobAux_fuel (pt.length + t.length + 1) pt t (by omega) _ _
      (by simp only [List.length_cons]; omega) (by omega)
  · intro pt c t h hc
    show matchGlobAux ((c :: t).length + ('[' :: pt).length + 1) ('[' :: pt) (c :: t)
      = false
    rw [matchGlobAux_lbracket_none h]
    show (('[' == c) && matchGlobAux ((c :: t).length + ('[' :: pt).length) pt t) = false
    rw [show (('[' : Char) == c) = false from beq_eq_false_iff_ne.mpr (Ne.symm hc),
      Bool.false_and]
  · intro pt h
    show matchGlobAux (([] : List Char).length + ('[' :: pt).length + 1) ('[' :: pt) []
      = false
    rw [matchGlobAux_lbracket_none h]
  · intro g gs
    rw [mem_load_groups]
    simp [key]

/-- C7 witness: the amended claim at the concrete malformed pattern
`"[*"` — the unterminated `[` matches a literal `[` and the `*` after it
keeps its glob meaning, so the pattern matches `"[xyz"` but no path that
does not start with `[`. -/
theorem c7_witness :
    matchGlob ['[', '*'] ['[', 'x', 'y', 'z'] = matchGlob ['*'] ['x', 'y', 'z']
    ∧ matchGlob ['[', '*'] ['x', 'y'] = false
    ∧ matchGlob ['[', '*'] [] = false
    ∧ matchGlob ['[', '*'] ['[', 'x', 'y', 'z'] = true :=
  ⟨c7_malformed_literal.1 ['*'] ['x', 'y', 'z'] (by decide),
   c7_malformed_literal.2.1 ['*'] 'x' ['y'] (by decide) (by decide),
   c7_malformed_literal.2.2.1 ['*'] (by decide),
   by decide⟩

/-- C8: running any registered collector list twice against an unchanged
state yields identical metric families, and `collect` leaves the shared
entity state untouched. -/
theorem c8_collect_idempotent :
    ∀ (s : CollectorState) (cs : List CollectorName),
    (collect s cs).1 = s ∧ (collect ((collect s cs).1) cs).2 = (collect s cs).2 := by
  have hrun : ∀ (c : CollectorName) (s : CollectorState), (runCollector c s).1 = s := by
    intro c s
    cases c <;> rfl
  have hfst : ∀ (cs : List CollectorName) (s : CollectorState), (collect s cs).1 = s := by
    intro cs
    induction cs with
    | nil => intro s; rfl
    | cons c rest ih =>
      intro s
      show (collect (runCollector c s).1 rest).1 = s
      rw [ih, hrun]
  intro s cs
  exact ⟨hfst cs s, by rw [hfst cs s]⟩

/-- C9: a protected branch with an empty `push_access_levels` list is
reported with the never-lowered sentinel 100000 for push, and symmetrically
an empty `merge_access_levels` list gives merge 100000. -/
theorem c9_empty_levels_sentinel :
    ∀ (projects : List Project) (proj : Project) (branch : Branch),
    proj ∈ projects → branch ∈ proj.branches → branch.«protected» = true →
    ∃ fp fm, collect_protected_branches projects = [fp, fm]
      ∧ (branch.protection.push_access_levels = [] →
          ([proj.path_with_namespace, branch.name], ((100000 : ℕ) : ℚ)) ∈ fp.samples)
      ∧ (branch.protection.merge_access_levels = [] →
          ([proj.path_with_namespace, branch.name], ((100000 : ℕ) : ℚ)) ∈ fm.samples) := by
  intro projects proj branch hp hb hprot
  obtain ⟨fp, fm, hcol, hpush, hmerge⟩ := pb_mem hp hb
  refine ⟨fp, fm, hcol, ?_, ?_⟩
  · intro hl
    rwa [show branchPush branch = 100000 from by simp [branchPush, hprot, hl]] at hpush
  · intro hl
    rwa [show branchMerge branch = 100000 from by simp [branchMerge, hprot, hl]] at hmerge

/-- C9 witness: the concrete protected branch with empty rule lists. -/
theorem c9_witness :
    ∃ fp fm, collect_protected_branches [wProjectC9] = [fp, fm]
      ∧ (["g/p", "main"], ((100000 : ℕ) : ℚ)) ∈ fp.samples
      ∧ (["g/p", "main"], ((100000 : ℕ) : ℚ)) ∈ fm.samples := by
  obtain ⟨fp, fm, h1, h2, h3⟩ := c9_empty_levels_sentinel [wProjectC9] wProjectC9 wBranchC9
    (by simp) (by simp [wProjectC9]) rfl
  exact ⟨fp, fm, h1, h2 rfl, h3 rfl⟩

/-- C10: a merge request whose assignee is `None` is emitted with the
sentinel label values `"None"`/`"None"` in all three merge-request families,
whose label-name tuples stay the fixed six-label `mr_labels`. -/
theorem c10_mr_unassigned_sentinel :
    ∀ (projects : List Project) (proj : Project) (mr : MergeRequest)
      (fams : List MetricFamily),
    proj ∈ projects → mr ∈ proj.mergerequests → mr.assignee = none →
    collect_merge_requests projects = some fams →
    ∃ f1 f2 f3, fams = [f1, f2, f3]
      ∧ f1.labelNames = mr_labels ∧ f2.labelNames = mr_labels ∧ f3.labelNames = mr_labels
      ∧ (∃ v, ([proj.path_with_namespace, toString mr.id, pyStrBool mr.work_in_progress,
          mr.title, "None", "None"], v) ∈ f1.samples)
      ∧ (∃ v, ([proj.path_with_namespace, toString mr.id, pyStrBool mr.work_in_progress,
          mr.title, "None", "None"], v) ∈ f2.samples)
      ∧ (∃ v, ([proj.path_with_namespace, toString mr.id, pyStrBool mr.work_in_progress,
          mr.title, "None", "None"], v) ∈ f3.samples) := by
  intro projects proj mr fams hp hm ha hc
  obtain ⟨rows, row, hfams, hrow, hrows⟩ := mr_mem hp hm hc
  have hlab : mrLabels proj mr
      = [proj.path_with_namespace, toString mr.id, pyStrBool mr.work_in_progress,
          mr.title, "None", "None"] := by
    simp [mrLabels, ha]
  simp only [mrRow, bind, Option.bind_eq_some, Option.some.injEq] at hrow
  obtain ⟨st, hst, created, hcr, updated, hup, hroweq⟩ := hrow
  subst hroweq
  refine ⟨_, _, _, hfams, rfl, rfl, rfl, ⟨(st : ℚ), ?_⟩, ⟨created, ?_⟩, ⟨updated, ?_⟩⟩
  · rw [← hlab]
    exact List.mem_map_of_mem _ hrows
  · rw [← hlab]
    exact List.mem_map_of_mem _ hrows
  · rw [← hlab]
    exact List.mem_map_of_mem _ hrows

/-- C10 witness: the concrete assignee-less merge request at a one-project
state. -/
theorem c10_witness :
    ∃ f1 f2 f3, (collect_merge_requests [wProjectC10]).getD [] = [f1, f2, f3]
      ∧ f1.labelNames = mr_labels ∧ f2.labelNames = mr_labels ∧ f3.labelNames = mr_labels
      ∧ (∃ v, (["g/p", "2", "False", "Add feature", "None", "None"], v) ∈ f1.samples)
      ∧ (∃ v, (["g/p", "2", "False", "Add feature", "None", "None"], v) ∈ f2.samples)
      ∧ (∃ v, (["g/p", "2", "False", "Add feature", "None", "None"], v) ∈ f3.samples) :=
  c10_mr_unassigned_sentinel [wProjectC10] wProjectC10 wMrC10
    ((collect_merge_requests [wProjectC10]).getD []) (by simp) (by simp [wProjectC10])
    rfl (by rfl)

end GitlabExporter
